import Mathlib

/-!
Verification of the GemsBlast match-3 board engine.

Shallow embedding of the board engine from `src/js/board.js`, `src/js/gems.js`
and `src/js/utils.js`.  The grid is modelled as a list of rows of optional
gems, exactly mirroring the JavaScript `grid[y][x]` array of `Gem | null`.
Randomness (gem color draws) is modelled by explicit supply functions.
Animation-only fields (`currentX`, `currentY`, `falling`, `fallSpeed`,
visual size/opacity) are presentation state and are not part of the model;
the authoritative fields (`x`, `y`, `targetX`, `targetY`, `color`, `type`,
`isRocketHorizontal`, `bombRadius`) are all carried.
-/

namespace GemsBlast

/-- The six gem colors (`GemColor` in gems.js). -/
inductive GemColor
  | red | blue | green | yellow | purple | orange
deriving DecidableEq, Repr

/-- Gem kinds (`GemType` in gems.js): normal, the three specials,
and the three collectibles. -/
inductive GemType
  | normal | rocket | bomb | rainbow | star | sun | moon
deriving DecidableEq, Repr

/-- The `specialType` field of a match record takes the string values
`normal`, `rocket`, `bomb`, `rainbow` in board.js. -/
inductive SpecialType
  | normal | rocket | bomb | rainbow
deriving DecidableEq, Repr

/-- The `type` field of a match record: `horizontal`, `vertical` or `tshape`. -/
inductive MatchShape
  | horizontal | vertical | tshape
deriving DecidableEq, Repr

/-- A gem (class `Gem` in gems.js), restricted to its authoritative fields. -/
structure Gem where
  x : Int
  y : Int
  targetX : Int
  targetY : Int
  color : GemColor
  type : GemType
  isRocketHorizontal : Bool
  bombRadius : Int
deriving DecidableEq, Repr

/-- `Gem.createRandom(x, y)` with the color draw made explicit: the
constructor sets current/target position to `(x, y)`, type `NORMAL`,
`isRocketHorizontal = false`, `bombRadius = 1`. -/
def Gem.createRandom (x y : Int) (color : GemColor) : Gem :=
  ⟨x, y, x, y, color, GemType.normal, false, 1⟩

/-- `Gem.createSpecial(x, y, color, matchType, isHorizontal)` from gems.js:
maps the match type to the gem type and sets rocket orientation. -/
def Gem.createSpecial (x y : Int) (color : GemColor) (matchType : SpecialType)
    (isHorizontal : Bool) : Gem :=
  let type :=
    match matchType with
    | SpecialType.rocket => GemType.rocket
    | SpecialType.bomb => GemType.bomb
    | SpecialType.rainbow => GemType.rainbow
    | SpecialType.normal => GemType.normal
  { x := x, y := y, targetX := x, targetY := y, color := color, type := type,
    isRocketHorizontal := (if type = GemType.rocket then isHorizontal else false),
    bombRadius := 1 }

/-- `Gem.canMatchWith(otherGem)` from gems.js (the `!otherGem` null check is
handled by `Option` at all call sites): rainbow gems never match, collectibles
(star/sun/moon) never match, otherwise match exactly on color equality. -/
def Gem.canMatchWith (g otherGem : Gem) : Bool :=
  if g.type = GemType.rainbow ∨ otherGem.type = GemType.rainbow then
    false
  else if g.type = GemType.star ∨ g.type = GemType.sun ∨ g.type = GemType.moon ∨
      otherGem.type = GemType.star ∨ otherGem.type = GemType.sun ∨
      otherGem.type = GemType.moon then
    false
  else
    g.color = otherGem.color

/-- A gem is a collectible when its type is star, sun or moon
(the skip condition in `findMatches`). -/
def Gem.isCollectible (g : Gem) : Bool :=
  g.type = GemType.star ∨ g.type = GemType.sun ∨ g.type = GemType.moon

/-- The activation effect of a special gem (`Gem.getActivationEffect`). -/
inductive Effect
  | rocket (horizontal : Bool) (px py : Int)
  | bomb (radius : Int) (px py : Int)
  | rainbow (color : GemColor) (px py : Int)
deriving DecidableEq, Repr

/-- `Gem.getActivationEffect()` from gems.js. -/
def Gem.getActivationEffect (g : Gem) : Option Effect :=
  match g.type with
  | GemType.rocket => some (Effect.rocket g.isRocketHorizontal g.x g.y)
  | GemType.bomb => some (Effect.bomb g.bombRadius g.x g.y)
  | GemType.rainbow => some (Effect.rainbow g.color g.x g.y)
  | _ => none

/-- `Utils.isValidGridPosition(x, y, gridWidth, gridHeight)` from utils.js. -/
def isValidGridPosition (x y : Int) (gridWidth gridHeight : Nat) : Bool :=
  0 ≤ x ∧ x < (gridWidth : Int) ∧ 0 ≤ y ∧ y < (gridHeight : Int)

/-- The game board (class `GameBoard` in board.js), restricted to the board
engine state: fixed dimensions and the `grid[y][x]` array of `Gem | null`. -/
structure GameBoard where
  width : Nat
  height : Nat
  grid : List (List (Option Gem))
deriving DecidableEq, Repr

namespace GameBoard

/-- Raw array access `this.grid[y][x]` (no bounds check); a missing row or
cell reads as empty, like `undefined`/`null` in the source. -/
def rawGet (b : GameBoard) (x y : Int) : Option Gem :=
  (b.grid.getD y.toNat []).getD x.toNat none

/-- Raw array store `this.grid[y][x] = v` (no bounds check). -/
def rawSet (b : GameBoard) (x y : Int) (v : Option Gem) : GameBoard :=
  { b with grid := b.grid.set y.toNat ((b.grid.getD y.toNat []).set x.toNat v) }

/-- `getGem(x, y)`: bounds-checked read returning `null` out of bounds. -/
def getGem (b : GameBoard) (x y : Int) : Option Gem :=
  if isValidGridPosition x y b.width b.height then b.rawGet x y else none

/-- The coordinate update a gem undergoes when stored at `(x, y)`:
`gem.x = x; gem.y = y; gem.setTargetPosition(x, y)`. -/
def updCoords (g : Gem) (x y : Int) : Gem :=
  { g with x := x, y := y, targetX := x, targetY := y }

/-- `updCoords` lifted to a nullable cell (the `if (gem)` guards). -/
def updCell (c : Option Gem) (x y : Int) : Option Gem :=
  c.map (fun g => updCoords g x y)

/-- `setGem(x, y, gem)`: fails (returning the board unchanged) out of
bounds, otherwise stores the gem with its coordinates updated. -/
def setGem (b : GameBoard) (x y : Int) (gem : Option Gem) : Bool × GameBoard :=
  if isValidGridPosition x y b.width b.height then
    (true, b.rawSet x y (updCell gem x y))
  else
    (false, b)

/-- `swapGems(x1, y1, x2, y2)`: fails before any mutation if either position
is out of bounds; otherwise exchanges the two cells, updating each moved
gem's recorded and target coordinates (the two sequential array stores of
the source, with the subsequent in-place coordinate mutations folded into
the stored values). -/
def swapGems (b : GameBoard) (x1 y1 x2 y2 : Int) : Bool × GameBoard :=
  if isValidGridPosition x1 y1 b.width b.height ∧
      isValidGridPosition x2 y2 b.width b.height then
    let gem1 := b.rawGet x1 y1
    let gem2 := b.rawGet x2 y2
    let b1 := b.rawSet x1 y1 (updCell gem2 x1 y1)
    let b2 := b1.rawSet x2 y2 (updCell gem1 x2 y2)
    (true, b2)
  else
    (false, b)

/-- Well-formedness of the grid array: `height` rows of `width` cells.
The constructor establishes this and every mutation preserves it. -/
def WF (b : GameBoard) : Prop :=
  b.grid.length = b.height ∧ ∀ row ∈ b.grid, row.length = b.width

/-- The data-model invariant of the spec (§3): every stored tile's recorded
position and target position equal its cell's coordinates. -/
def Synced (b : GameBoard) : Prop :=
  ∀ y < b.height, ∀ x < b.width,
    (b.rawGet (x : Int) (y : Int)).all
      (fun g => g.x = (x : Int) ∧ g.y = (y : Int) ∧
        g.targetX = (x : Int) ∧ g.targetY = (y : Int)) = true

instance (b : GameBoard) : Decidable b.WF := by
  unfold WF; infer_instance

instance (b : GameBoard) : Decidable b.Synced := by
  unfold Synced; infer_instance

end GameBoard

/-- An entry `{ x, y, gem }` of a match's gem array. -/
structure MatchCell where
  x : Int
  y : Int
  gem : Gem
deriving DecidableEq, Repr

/-- A match record as built by `findMatches` / `enhanceMatchesWithLAndT`:
`type`, `gems`, `color`, `length`, `specialType`, and for t-shape matches
the `centerX`/`centerY` pair (absent on plain line matches). -/
structure MatchData where
  shape : MatchShape
  gems : List MatchCell
  color : GemColor
  length : Nat
  specialType : SpecialType
  center : Option (Int × Int)
deriving DecidableEq, Repr

namespace GameBoard

/-- The extension loop of `findHorizontalMatch`: walk right from `x` while
the gem there matches the anchor gem.  Fuel bounds the walk by the board
width; the walk stops by itself at `x = width` because `getGem` is `none`
there, exactly like the `x < this.width` loop bound. -/
def findHorizontalMatchAux (b : GameBoard) (startGem : Gem) (startY : Int) :
    Nat → Int → List MatchCell
  | 0, _ => []
  | fuel + 1, x =>
    match b.getGem x startY with
    | some gem =>
      if gem.canMatchWith startGem then
        ⟨x, startY, gem⟩ :: findHorizontalMatchAux b startGem startY fuel (x + 1)
      else []
    | none => []

/-- `findHorizontalMatch(startX, startY)` from board.js. -/
def findHorizontalMatch (b : GameBoard) (startX startY : Int) : List MatchCell :=
  match b.getGem startX startY with
  | none => []
  | some startGem => findHorizontalMatchAux b startGem startY b.width startX

/-- The extension loop of `findVerticalMatch`: walk down while matching. -/
def findVerticalMatchAux (b : GameBoard) (startGem : Gem) (startX : Int) :
    Nat → Int → List MatchCell
  | 0, _ => []
  | fuel + 1, y =>
    match b.getGem startX y with
    | some gem =>
      if gem.canMatchWith startGem then
        ⟨startX, y, gem⟩ :: findVerticalMatchAux b startGem startX fuel (y + 1)
      else []
    | none => []

/-- `findVerticalMatch(startX, startY)` from board.js. -/
def findVerticalMatch (b : GameBoard) (startX startY : Int) : List MatchCell :=
  match b.getGem startX startY with
  | none => []
  | some startGem => findVerticalMatchAux b startGem startX b.height startY

/-- `determineSpecialType(match, matchType)` from board.js: length 4 gives a
rocket, length exactly 5 a rainbow, any other length 3 or more (and the
unreachable below-3 fallthrough) `normal`. -/
def determineSpecialType (mtch : List MatchCell) (_matchType : MatchShape) :
    SpecialType :=
  if mtch.length = 4 then SpecialType.rocket
  else if mtch.length = 5 then SpecialType.rainbow
  else if 3 ≤ mtch.length then SpecialType.normal
  else SpecialType.normal

/-- One step of the horizontal scan of `findMatches` at cell `(x, y)`:
skip empty/visited/collectible cells, record runs of length ≥ 3 and mark
their member cells visited. -/
def hpassStep (b : GameBoard) (acc : List MatchData × List (Int × Int))
    (x y : Nat) : List MatchData × List (Int × Int) :=
  match b.getGem (x : Int) (y : Int) with
  | none => acc
  | some gem =>
    if acc.2.contains ((x : Int), (y : Int)) then acc
    else if gem.isCollectible then acc
    else if 3 ≤ (b.findHorizontalMatch (x : Int) (y : Int)).length then
      (acc.1 ++ [⟨MatchShape.horizontal, b.findHorizontalMatch (x : Int) (y : Int),
          gem.color, (b.findHorizontalMatch (x : Int) (y : Int)).length,
          determineSpecialType (b.findHorizontalMatch (x : Int) (y : Int))
            MatchShape.horizontal, none⟩],
       acc.2 ++ (b.findHorizontalMatch (x : Int) (y : Int)).map (fun pos => (pos.x, pos.y)))
    else acc

/-- The horizontal pass of `findMatches`: `for y in [0, height)`,
`for x in [0, width - 2)`. -/
def hpass (b : GameBoard) (acc : List MatchData × List (Int × Int)) :
    List MatchData × List (Int × Int) :=
  (List.range b.height).foldl
    (fun acc y => (List.range (b.width - 2)).foldl (fun acc x => hpassStep b acc x y) acc)
    acc

/-- One step of the vertical scan of `findMatches` at cell `(x, y)`. -/
def vpassStep (b : GameBoard) (acc : List MatchData × List (Int × Int))
    (x y : Nat) : List MatchData × List (Int × Int) :=
  match b.getGem (x : Int) (y : Int) with
  | none => acc
  | some gem =>
    if acc.2.contains ((x : Int), (y : Int)) then acc
    else if gem.isCollectible then acc
    else if 3 ≤ (b.findVerticalMatch (x : Int) (y : Int)).length then
      (acc.1 ++ [⟨MatchShape.vertical, b.findVerticalMatch (x : Int) (y : Int),
          gem.color, (b.findVerticalMatch (x : Int) (y : Int)).length,
          determineSpecialType (b.findVerticalMatch (x : Int) (y : Int))
            MatchShape.vertical, none⟩],
       acc.2 ++ (b.findVerticalMatch (x : Int) (y : Int)).map (fun pos => (pos.x, pos.y)))
    else acc

/-- The vertical pass of `findMatches`: `for x in [0, width)`,
`for y in [0, height - 2)`.  It shares the visited array with the
horizontal pass (the source uses a single `visited` for both passes). -/
def vpass (b : GameBoard) (acc : List MatchData × List (Int × Int)) :
    List MatchData × List (Int × Int) :=
  (List.range b.width).foldl
    (fun acc x => (List.range (b.height - 2)).foldl (fun acc y => vpassStep b acc x y) acc)
    acc

/-- `findMatchIntersection(match1, match2)` from board.js: the first shared
cell position of the two matches, in the nested scan order of the source. -/
def findMatchIntersection (match1 match2 : MatchData) : Option (Int × Int) :=
  match1.gems.findSome? (fun gem1 =>
    match2.gems.findSome? (fun gem2 =>
      if gem1.x = gem2.x ∧ gem1.y = gem2.y then some (gem1.x, gem1.y) else none))

/-- The dedup-by-position union of `enhanceMatchesWithLAndT`:
`combinedGems = [...match1.gems]` then push every cell of `match2.gems`
whose position is not already present. -/
def combineGems (gems1 gems2 : List MatchCell) : List MatchCell :=
  gems2.foldl
    (fun combined gem =>
      if combined.any (fun g => g.x = gem.x ∧ g.y = gem.y) then combined
      else combined ++ [gem])
    gems1

/-- The merged t-shape match built by `enhanceMatchesWithLAndT` for an
intersecting horizontal/vertical pair: a bomb only when the combined match
has 5 or more gems, otherwise `normal`. -/
def mergeMatches (match1 match2 : MatchData) (intersection : Int × Int) :
    MatchData :=
  let combinedGems := combineGems match1.gems match2.gems
  { shape := MatchShape.tshape, gems := combinedGems, color := match1.color,
    length := combinedGems.length,
    specialType := if 5 ≤ combinedGems.length then SpecialType.bomb else SpecialType.normal,
    center := some intersection }

/-- The inner `j` loop of `enhanceMatchesWithLAndT`: scan the later matches
in order, skipping already-processed indices, and merge with the first one
that intersects `match1` perpendicularly. -/
def findFirstPerpIntersecting (match1 : MatchData) :
    List (Nat × MatchData) → List Nat → Option (Nat × MatchData)
  | [], _ => none
  | (j, match2) :: rest, processed =>
    if processed.contains j then findFirstPerpIntersecting match1 rest processed
    else
      match findMatchIntersection match1 match2 with
      | some intersection =>
        if (match1.shape = MatchShape.horizontal ∧ match2.shape = MatchShape.vertical) ∨
            (match1.shape = MatchShape.vertical ∧ match2.shape = MatchShape.horizontal) then
          some (j, mergeMatches match1 match2 intersection)
        else findFirstPerpIntersecting match1 rest processed
      | none => findFirstPerpIntersecting match1 rest processed

/-- The outer `i` loop of `enhanceMatchesWithLAndT` over index-tagged
matches with the `processedIndices` set. -/
def enhanceAux : List (Nat × MatchData) → List Nat → List MatchData
  | [], _ => []
  | (i, match1) :: rest, processed =>
    if processed.contains i then enhanceAux rest processed
    else
      match findFirstPerpIntersecting match1 rest processed with
      | some (j, merged) => merged :: enhanceAux rest (processed ++ [j])
      | none => match1 :: enhanceAux rest processed

/-- `enhanceMatchesWithLAndT(matches)` from board.js. -/
def enhanceMatchesWithLAndT (ms : List MatchData) : List MatchData :=
  if ms.length < 2 then ms
  else enhanceAux ms.enum []

/-- The two scanning passes of `findMatches`, before compound enhancement. -/
def scanPasses (b : GameBoard) : List MatchData :=
  (b.vpass (b.hpass ([], []))).1

/-- `findMatches()` from board.js: horizontal pass, vertical pass (sharing
one visited array), then L/T enhancement. -/
def findMatches (b : GameBoard) : List MatchData :=
  enhanceMatchesWithLAndT b.scanPasses

/-- `getBestSpecialGemPosition(match)` from board.js, with the board's
`lastSwapPosition` passed explicitly.  Order of preference in the source:
the t-shape center when present, then the last swap position when it is a
member of this match, then the middle gem of the list. -/
def getBestSpecialGemPosition (lastSwapPosition : Option (Int × Int))
    (mtch : MatchData) : Option (Int × Int) :=
  match mtch.center with
  | some c => some c
  | none =>
    match lastSwapPosition with
    | some swapPos =>
      if (mtch.gems.find? (fun pos => pos.x = swapPos.1 ∧ pos.y = swapPos.2)).isSome then
        some swapPos
      else if 0 < mtch.gems.length then
        (mtch.gems.get? (mtch.gems.length / 2)).map (fun g => (g.x, g.y))
      else none
    | none =>
      if 0 < mtch.gems.length then
        (mtch.gems.get? (mtch.gems.length / 2)).map (fun g => (g.x, g.y))
      else none

/-- A pending special gem creation (`specialGemsToCreate` entries). -/
structure SpecialCreate where
  x : Int
  y : Int
  color : GemColor
  stype : SpecialType
  isHorizontal : Bool
deriving DecidableEq, Repr

/-- The accumulated first-pass state of `removeMatches`: the `gemsToRemove`
key set (a JS `Set`, modelled as an insertion-ordered duplicate-free list),
the `specialGemsToCreate` list and the `specialGemsToActivate` list. -/
structure RemovalPlan where
  removed : List (Int × Int)
  creates : List SpecialCreate
  activates : List (Gem × Int × Int)
deriving DecidableEq, Repr

/-- `Set.add` on the `gemsToRemove` key set: a no-op when the key is
already a member, otherwise appended in insertion order. -/
def insertKey (keys : List (Int × Int)) (key : Int × Int) : List (Int × Int) :=
  if key ∈ keys then keys else keys ++ [key]

/-- The body of the first `matches.forEach` of `removeMatches` for one
match: record the special gem to create (when the match qualifies and a
position was found), then walk the match's gems, adding each position not
claimed by a pending special creation to the removal set and queueing any
pre-existing rocket/bomb gem for activation. -/
def removalPlanStep (lastSwapPosition : Option (Int × Int))
    (plan : RemovalPlan) (mtch : MatchData) : RemovalPlan :=
  let specialGemPos := getBestSpecialGemPosition lastSwapPosition mtch
  let creates :=
    match specialGemPos with
    | some pos =>
      if mtch.specialType ≠ SpecialType.normal then
        plan.creates ++ [⟨pos.1, pos.2, mtch.color, mtch.specialType,
          mtch.shape = MatchShape.horizontal⟩]
      else plan.creates
    | none => plan.creates
  mtch.gems.foldl
    (fun plan pos =>
      let willCreateSpecialHere :=
        creates.any (fun special => special.x = pos.x ∧ special.y = pos.y)
      let removed := if willCreateSpecialHere then plan.removed
        else insertKey plan.removed (pos.x, pos.y)
      let activates :=
        if pos.gem.type = GemType.rocket ∨ pos.gem.type = GemType.bomb then
          plan.activates ++ [(pos.gem, pos.x, pos.y)]
        else plan.activates
      ⟨removed, creates, activates⟩)
    ⟨plan.removed, creates, plan.activates⟩

/-- The whole first pass of `removeMatches` over the match list. -/
def removalPlanOf (lastSwapPosition : Option (Int × Int))
    (ms : List MatchData) : RemovalPlan :=
  ms.foldl (removalPlanStep lastSwapPosition) ⟨[], [], []⟩

/-- `applySpecialEffect(effect)` from board.js, restricted to its grid
effect (particles, sounds and the animation `setTimeout` pacing are
presentation-layer): a rocket clears its row or column, a bomb clears the
square of its radius around its position, a rainbow clears every gem of
its color. -/
def applySpecialEffect (b : GameBoard) (effect : Effect) : GameBoard :=
  match effect with
  | Effect.rocket horizontal px py =>
    if horizontal then
      (List.range b.width).foldl (fun b x => (b.setGem (x : Int) py none).2) b
    else
      (List.range b.height).foldl (fun b y => (b.setGem px (y : Int) none).2) b
  | Effect.bomb radius px py =>
    (List.range (2 * radius.toNat + 1)).foldl
      (fun b dy =>
        (List.range (2 * radius.toNat + 1)).foldl
          (fun b dx =>
            let x := px + ((dx : Int) - radius)
            let y := py + ((dy : Int) - radius)
            if isValidGridPosition x y b.width b.height then (b.setGem x y none).2
            else b)
          b)
      b
  | Effect.rainbow targetColor _ _ =>
    (List.range b.height).foldl
      (fun b y =>
        (List.range b.width).foldl
          (fun b x =>
            match b.getGem (x : Int) (y : Int) with
            | some gem => if gem.color = targetColor then (b.setGem (x : Int) (y : Int) none).2 else b
            | none => b)
          b)
      b

/-- `removeMatches(matches)` from board.js, as a grid transformer (the
returned `removedGems` notification list feeds scoring/objectives, outside
the board engine): build the first-pass plan, activate the caught special
gems (their area effects clear cells first), clear the removal set, then
create the new special gems at their reserved positions. -/
def removeMatches (b : GameBoard) (ms : List MatchData)
    (lastSwapPosition : Option (Int × Int)) : GameBoard :=
  let plan := removalPlanOf lastSwapPosition ms
  let afterActivation :=
    plan.activates.foldl
      (fun b entry =>
        match (entry.1).getActivationEffect with
        | some effect => applySpecialEffect b effect
        | none => b)
      b
  let afterRemoval :=
    plan.removed.foldl (fun b key => (b.setGem key.1 key.2 none).2) afterActivation
  plan.creates.foldl
    (fun b s =>
      (b.setGem s.x s.y
        (some (Gem.createSpecial s.x s.y s.color s.stype s.isHorizontal))).2)
    afterRemoval

/-- The tile identity a column's gravity is specified over: color and kind
(coordinate bookkeeping is tracked separately). -/
def gemCore (g : Gem) : GemColor × GemType := (g.color, g.type)

/-- The first gravity loop of `applyGravity` for one column, walking the
column bottom-up (`for y = height-1 downto 0`) and collecting the gems in
encounter order together with their original row. -/
def gatherBottomUp : List (Nat × Option Gem) → List (Nat × Gem)
  | [] => []
  | (y, cell) :: rest =>
    match cell with
    | some gem => (y, gem) :: gatherBottomUp rest
    | none => gatherBottomUp rest

/-- A refill gem: `Gem.createRandom(x, y)` followed by `setGem(x, y, ...)`,
whose net coordinate state is `(x, y)` for both position and target. -/
def mkFreshGem (x y : Int) (color : GemColor) : Gem :=
  Gem.createRandom x y color

/-- `applyGravity` for one column (the source loops over columns
independently): the `i`-th gem collected bottom-up lands at row
`height-1-i` — moved gems get their coordinates rewritten by `setGem`,
gems already in place are left untouched — and the vacated rows
`writeIndex, writeIndex-1, ..., 0` are filled with fresh random gems drawn
from the supply in creation order.  The returned list is the column
top-down. -/
def applyGravityColumn (x : Int) (fresh : Nat → GemColor)
    (col : List (Option Gem)) : List Gem :=
  let h := col.length
  let collected := gatherBottomUp ((List.range h).reverse.zip col.reverse)
  let settled := collected.enum.map
    (fun entry =>
      let i := entry.1
      let y := entry.2.1
      let gem := entry.2.2
      if y = h - 1 - i then gem else updCoords gem x ((h : Int) - 1 - i))
  let writeIndex : Int := (h : Int) - collected.length - 1
  let fillCount := h - collected.length
  let freshGems := (List.range fillCount).map
    (fun j => mkFreshGem x (writeIndex - Int.ofNat j) (fresh j))
  (settled ++ freshGems).reverse

/-- Column `x` of the board, top-down. -/
def column (b : GameBoard) (x : Nat) : List (Option Gem) :=
  (List.range b.height).map (fun y => b.getGem (x : Int) (y : Int))

/-- `applyGravity()` from board.js (grid effect; the returned movement list
drives animation): every column settles independently via
`applyGravityColumn`, with an explicit per-column color supply for the
random refill draws. -/
def applyGravity (b : GameBoard) (fresh : Nat → Nat → GemColor) : GameBoard :=
  { b with grid :=
      (List.range b.height).map (fun y =>
        (List.range b.width).map (fun x =>
          (applyGravityColumn (Int.ofNat x) (fresh x) (b.column x)).get? y)) }

/-- `wouldCreateMatchAfterSwap(x1, y1, x2, y2)` from board.js: swap, scan
for matches, swap back; returns the predicate result together with the
board it leaves behind. -/
def wouldCreateMatchAfterSwap (b : GameBoard) (x1 y1 x2 y2 : Int) :
    Bool × GameBoard :=
  let b1 := (b.swapGems x1 y1 x2 y2).2
  let hasMatches := 0 < b1.findMatches.length
  let b2 := (b1.swapGems x1 y1 x2 y2).2
  (hasMatches, b2)

/-- One cascade round of `processMatches` in game.js (the authoritative
state transitions, with animation delays elided): detect, remove, apply
gravity.  Cascade rounds run with `lastSwapPosition` cleared. -/
def cascadeRound (fresh : Nat → Nat → GemColor) (b : GameBoard) : GameBoard :=
  (b.removeMatches b.findMatches none).applyGravity fresh

/-- `n` cascade rounds, round `i` drawing from supply `fresh i`. -/
def cascadeRounds (fresh : Nat → Nat → Nat → GemColor) :
    Nat → GameBoard → GameBoard
  | 0, b => b
  | n + 1, b => cascadeRounds fresh n (cascadeRound (fresh n) b)

end GameBoard

section ConcreteInstances

open GameBoard

/-- A 6×1 board whose single row is entirely red: `findMatches` emits one
horizontal run of length 6. -/
def board6 : GameBoard :=
  ⟨6, 1, [[some (Gem.createRandom 0 0 GemColor.red),
           some (Gem.createRandom 1 0 GemColor.red),
           some (Gem.createRandom 2 0 GemColor.red),
           some (Gem.createRandom 3 0 GemColor.red),
           some (Gem.createRandom 4 0 GemColor.red),
           some (Gem.createRandom 5 0 GemColor.red)]]⟩

/-- The single match the scanner emits on `board6`. -/
def match6 : MatchData :=
  ⟨MatchShape.horizontal,
   [⟨0, 0, Gem.createRandom 0 0 GemColor.red⟩,
    ⟨1, 0, Gem.createRandom 1 0 GemColor.red⟩,
    ⟨2, 0, Gem.createRandom 2 0 GemColor.red⟩,
    ⟨3, 0, Gem.createRandom 3 0 GemColor.red⟩,
    ⟨4, 0, Gem.createRandom 4 0 GemColor.red⟩,
    ⟨5, 0, Gem.createRandom 5 0 GemColor.red⟩],
   GemColor.red, 6, SpecialType.normal, none⟩

/-- A 3×3 board carrying a T shape of red gems: a horizontal run on row 2
and a vertical run in column 1, sharing cell `(1, 2)`. -/
def boardT : GameBoard :=
  ⟨3, 3, [[some (Gem.createRandom 0 0 GemColor.blue),
           some (Gem.createRandom 1 0 GemColor.red),
           some (Gem.createRandom 2 0 GemColor.green)],
          [some (Gem.createRandom 0 1 GemColor.green),
           some (Gem.createRandom 1 1 GemColor.red),
           some (Gem.createRandom 2 1 GemColor.blue)],
          [some (Gem.createRandom 0 2 GemColor.red),
           some (Gem.createRandom 1 2 GemColor.red),
           some (Gem.createRandom 2 2 GemColor.red)]]⟩

/-- The horizontal run the scanner emits on `boardT` (row 2). -/
def matchTH : MatchData :=
  ⟨MatchShape.horizontal,
   [⟨0, 2, Gem.createRandom 0 2 GemColor.red⟩,
    ⟨1, 2, Gem.createRandom 1 2 GemColor.red⟩,
    ⟨2, 2, Gem.createRandom 2 2 GemColor.red⟩],
   GemColor.red, 3, SpecialType.normal, none⟩

/-- The vertical run the scanner emits on `boardT` (column 1). -/
def matchTV : MatchData :=
  ⟨MatchShape.vertical,
   [⟨1, 0, Gem.createRandom 1 0 GemColor.red⟩,
    ⟨1, 1, Gem.createRandom 1 1 GemColor.red⟩,
    ⟨1, 2, Gem.createRandom 1 2 GemColor.red⟩],
   GemColor.red, 3, SpecialType.normal, none⟩

/-- A compound (t-shape) match of five red cells whose intersection center
is `(1, 0)`; cell `(0, 0)` is also a member. -/
def matchCompound : MatchData :=
  ⟨MatchShape.tshape,
   [⟨0, 0, Gem.createRandom 0 0 GemColor.red⟩,
    ⟨1, 0, Gem.createRandom 1 0 GemColor.red⟩,
    ⟨2, 0, Gem.createRandom 2 0 GemColor.red⟩,
    ⟨1, 1, Gem.createRandom 1 1 GemColor.red⟩,
    ⟨1, 2, Gem.createRandom 1 2 GemColor.red⟩],
   GemColor.red, 5, SpecialType.bomb, some (1, 0)⟩

/-- A small well-formed, position-synced 2×2 board. -/
def boardW : GameBoard :=
  ⟨2, 2, [[some (Gem.createRandom 0 0 GemColor.red),
           some (Gem.createRandom 1 0 GemColor.blue)],
          [some (Gem.createRandom 0 1 GemColor.green),
           some (Gem.createRandom 1 1 GemColor.yellow)]]⟩

/-- A 1×3 board with an entirely empty column, about to be refilled. -/
def boardEmptyCol : GameBoard := ⟨1, 3, [[none], [none], [none]]⟩

/-- A refill draw stream whose first three draws are red and whose fourth
draw (the first retry candidate) is blue. -/
def runStream : Nat → Nat → GemColor :=
  fun _ j => if j ≤ 2 then GemColor.red else GemColor.blue

/-- The same stream with the offending third draw replaced by the retry
draw's blue — one redraw within the budget. -/
def redrawStream : Nat → Nat → GemColor :=
  fun _ j => if j = 2 then GemColor.blue else GemColor.red

/-- A 3×1 board whose single row is entirely red. -/
def board3 : GameBoard :=
  ⟨3, 1, [[some (Gem.createRandom 0 0 GemColor.red),
           some (Gem.createRandom 1 0 GemColor.red),
           some (Gem.createRandom 2 0 GemColor.red)]]⟩

/-- A refill supply that always draws red, in every round and column. -/
def redCascade : Nat → Nat → Nat → GemColor := fun _ _ _ => GemColor.red

end ConcreteInstances

/-! ## Theorems -/

open GameBoard

/-- C3: for every pair of tiles `a` and `b`, `canMatchWith` returns true if
and only if neither tile is a Rainbow tile, neither tile is a collectible
(star/sun/moon) tile, and the two tiles' color values are equal.  Since a
Rocket or Bomb tile is neither rainbow nor collectible, such tiles match
anything of their color. -/
theorem canMatchWith_iff (a b : Gem) :
    a.canMatchWith b = true ↔
      (a.type ≠ GemType.rainbow ∧ b.type ≠ GemType.rainbow ∧
       a.isCollectible = false ∧ b.isCollectible = false ∧ a.color = b.color) := by
  unfold Gem.canMatchWith Gem.isCollectible
  split_ifs with h1 h2 <;> simp_all <;> tauto

/-- C8: for every out-of-bounds coordinate pair, `getGem` returns the empty
sentinel, and `setGem` and `swapGems` (with the bad pair in either slot)
report failure and return the board completely unchanged — nothing is
wrapped or clamped. -/
theorem oob_ops_fail_unchanged (b : GameBoard) (x y x2 y2 : Int) (g : Option Gem)
    (h : isValidGridPosition x y b.width b.height = false) :
    b.getGem x y = none ∧
    b.setGem x y g = (false, b) ∧
    b.swapGems x y x2 y2 = (false, b) ∧
    b.swapGems x2 y2 x y = (false, b) := by
  have h' : ¬ (isValidGridPosition x y b.width b.height = true) := by simp [h]
  unfold GameBoard.getGem GameBoard.setGem GameBoard.swapGems
  refine ⟨?_, ?_, ?_, ?_⟩ <;> simp [h']

/-- Witness for C8 at the concrete position `(-1, 0)` on `boardW`. -/
theorem oob_ops_fail_unchanged_witness :
    boardW.getGem (-1) 0 = none ∧
    boardW.setGem (-1) 0 none = (false, boardW) ∧
    boardW.swapGems (-1) 0 0 0 = (false, boardW) ∧
    boardW.swapGems 0 0 (-1) 0 = (false, boardW) :=
  oob_ops_fail_unchanged boardW (-1) 0 0 0 none (by decide)

/-- C2 counterexample: on `board6` the detector emits a single non-compound
horizontal match of length 6 whose derived special kind is `normal` (the
spec's `none`), not `rainbow` — refuting "rainbow when the run length is 5
or more". -/
theorem findMatches_len6_not_rainbow :
    (board6.findMatches).map (fun m => (m.shape, m.length, m.specialType)) =
      [(MatchShape.horizontal, 6, SpecialType.normal)] := by
  decide

/-- A property preserved by every step of a fold is preserved by the fold. -/
theorem foldl_preserve {α β : Type _} {Q : β → Prop} (f : β → α → β)
    (hf : ∀ acc a, Q acc → Q (f acc a)) :
    ∀ (l : List α) (init : β), Q init → Q (l.foldl f init)
  | [], _, h => h
  | a :: l, init, h => foldl_preserve f hf l (f init a) (hf init a h)

/-- One horizontal scan step only appends matches whose recorded `length`
and `specialType` are derived from their gem list. -/
theorem hpassStep_preserve (b : GameBoard) (acc : List MatchData × List (Int × Int))
    (x y : Nat)
    (h : ∀ m ∈ acc.1,
      m.length = m.gems.length ∧ m.specialType = determineSpecialType m.gems m.shape) :
    ∀ m ∈ (hpassStep b acc x y).1,
      m.length = m.gems.length ∧ m.specialType = determineSpecialType m.gems m.shape := by
  unfold hpassStep
  split
  · exact h
  · split_ifs with h1 h2 h3
    · exact h
    · exact h
    · intro m hm
      rcases List.mem_append.1 hm with hm | hm
      · exact h m hm
      · rcases List.mem_singleton.1 hm with rfl
        exact ⟨rfl, rfl⟩
    · exact h

/-- One vertical scan step only appends matches whose recorded `length`
and `specialType` are derived from their gem list. -/
theorem vpassStep_preserve (b : GameBoard) (acc : List MatchData × List (Int × Int))
    (x y : Nat)
    (h : ∀ m ∈ acc.1,
      m.length = m.gems.length ∧ m.specialType = determineSpecialType m.gems m.shape) :
    ∀ m ∈ (vpassStep b acc x y).1,
      m.length = m.gems.length ∧ m.specialType = determineSpecialType m.gems m.shape := by
  unfold vpassStep
  split
  · exact h
  · split_ifs with h1 h2 h3
    · exact h
    · exact h
    · intro m hm
      rcases List.mem_append.1 hm with hm | hm
      · exact h m hm
      · rcases List.mem_singleton.1 hm with rfl
        exact ⟨rfl, rfl⟩
    · exact h

/-- Every match emitted by the two scanning passes carries a `length` equal
to its gem count and a `specialType` computed by `determineSpecialType`. -/
theorem scanPasses_invariant (b : GameBoard) :
    ∀ m ∈ b.scanPasses,
      m.length = m.gems.length ∧ m.specialType = determineSpecialType m.gems m.shape := by
  unfold scanPasses vpass hpass
  refine foldl_preserve
    (Q := fun acc : List MatchData × List (Int × Int) => ∀ m ∈ acc.1,
      m.length = m.gems.length ∧ m.specialType = determineSpecialType m.gems m.shape)
    _ ?_ _ _ ?_
  · intro acc x hacc
    refine foldl_preserve
      (Q := fun acc : List MatchData × List (Int × Int) => ∀ m ∈ acc.1,
        m.length = m.gems.length ∧ m.specialType = determineSpecialType m.gems m.shape)
      _ ?_ _ _ hacc
    intro acc y hacc
    exact vpassStep_preserve b acc x y hacc
  · refine foldl_preserve
      (Q := fun acc : List MatchData × List (Int × Int) => ∀ m ∈ acc.1,
        m.length = m.gems.length ∧ m.specialType = determineSpecialType m.gems m.shape)
      _ ?_ _ _ ?_
    · intro acc y hacc
      refine foldl_preserve
        (Q := fun acc : List MatchData × List (Int × Int) => ∀ m ∈ acc.1,
          m.length = m.gems.length ∧ m.specialType = determineSpecialType m.gems m.shape)
        _ ?_ _ _ hacc
      intro acc x hacc
      exact hpassStep_preserve b acc x y hacc
    · intro m hm
      exact absurd hm (List.not_mem_nil m)

/-- A successful inner-loop search of the enhancement step returns a merged
match, and merged matches are t-shapes. -/
theorem findFirstPerpIntersecting_shape (m1 : MatchData) :
    ∀ (pairs : List (Nat × MatchData)) (processed : List Nat) (j : Nat)
      (merged : MatchData),
      findFirstPerpIntersecting m1 pairs processed = some (j, merged) →
      merged.shape = MatchShape.tshape := by
  intro pairs
  induction pairs with
  | nil => intro processed j merged h; exact absurd h (by simp [findFirstPerpIntersecting])
  | cons p rest ih =>
    intro processed j merged h
    rcases p with ⟨i, m2⟩
    unfold findFirstPerpIntersecting at h
    by_cases h1 : processed.contains i = true
    · rw [if_pos h1] at h
      exact ih processed j merged h
    · rw [if_neg h1] at h
      cases hint : findMatchIntersection m1 m2 with
      | none =>
        rw [hint] at h
        exact ih processed j merged h
      | some c =>
        rw [hint] at h
        dsimp only at h
        by_cases h2 : (m1.shape = MatchShape.horizontal ∧ m2.shape = MatchShape.vertical) ∨
            (m1.shape = MatchShape.vertical ∧ m2.shape = MatchShape.horizontal)
        · rw [if_pos h2] at h
          rcases Option.some.inj h with h
          rcases Prod.mk.injEq .. ▸ h with ⟨-, rfl⟩
          rfl
        · rw [if_neg h2] at h
          exact ih processed j merged h

/-- Every match in the output of the enhancement loop is either a merged
t-shape or one of the input matches. -/
theorem enhanceAux_mem :
    ∀ (pairs : List (Nat × MatchData)) (processed : List Nat) (m : MatchData),
      m ∈ enhanceAux pairs processed →
      m.shape = MatchShape.tshape ∨ ∃ i, (i, m) ∈ pairs := by
  intro pairs
  induction pairs with
  | nil => intro processed m h; exact absurd h (by simp [enhanceAux])
  | cons p rest ih =>
    intro processed m h
    rcases p with ⟨i, m1⟩
    unfold enhanceAux at h
    by_cases h1 : processed.contains i = true
    · rw [if_pos h1] at h
      rcases ih processed m h with h | ⟨j, hj⟩
      · exact Or.inl h
      · exact Or.inr ⟨j, List.mem_cons_of_mem _ hj⟩
    · rw [if_neg h1] at h
      cases heq : findFirstPerpIntersecting m1 rest processed with
      | some jm =>
        rcases jm with ⟨j', merged⟩
        rw [heq] at h
        rcases List.mem_cons.1 h with rfl | h
        · exact Or.inl (findFirstPerpIntersecting_shape m1 rest processed j' m heq)
        · rcases ih _ m h with h | ⟨j2, hj⟩
          · exact Or.inl h
          · exact Or.inr ⟨j2, List.mem_cons_of_mem _ hj⟩
      | none =>
        rw [heq] at h
        rcases List.mem_cons.1 h with rfl | h
        · exact Or.inr ⟨i, List.mem_cons_self _ _⟩
        · rcases ih _ m h with h | ⟨j2, hj⟩
          · exact Or.inl h
          · exact Or.inr ⟨j2, List.mem_cons_of_mem _ hj⟩

/-- Membership in an `enumFrom` projects to membership in the list. -/
theorem snd_mem_of_mem_enumFrom {α : Type _} :
    ∀ (l : List α) (n : Nat) (p : Nat × α), p ∈ List.enumFrom n l → p.2 ∈ l := by
  intro l
  induction l with
  | nil => intro n p h; exact absurd h (by simp)
  | cons a rest ih =>
    intro n p h
    rcases List.mem_cons.1 h with rfl | h
    · exact List.mem_cons_self _ _
    · exact List.mem_cons_of_mem _ (ih (n + 1) p h)

/-- Every match `enhanceMatchesWithLAndT` returns is a merged t-shape or
one of its input matches, unchanged. -/
theorem enhance_mem (ms : List MatchData) (m : MatchData)
    (h : m ∈ enhanceMatchesWithLAndT ms) :
    m.shape = MatchShape.tshape ∨ m ∈ ms := by
  unfold enhanceMatchesWithLAndT at h
  split_ifs at h with h1
  · exact Or.inr h
  · rcases enhanceAux_mem ms.enum [] m h with h | ⟨i, hi⟩
    · exact Or.inl h
    · exact Or.inr (snd_mem_of_mem_enumFrom ms 0 (i, m) hi)

/-- `determineSpecialType` as a two-way case split: the two `normal`
branches of the source collapse. -/
theorem determineSpecialType_eq (l : List MatchCell) (t : MatchShape) :
    determineSpecialType l t =
      if l.length = 4 then SpecialType.rocket
      else if l.length = 5 then SpecialType.rainbow
      else SpecialType.normal := by
  unfold determineSpecialType
  split_ifs <;> rfl

/-- C2 (amended): for every non-compound match emitted by `findMatches`,
the derived special kind is `rocket` exactly for run length 4, `rainbow`
exactly for run length 5, and `none` (`normal`) for length 3 as well as for
any length 6 or more. -/
theorem findMatches_noncompound_specialType (b : GameBoard) (m : MatchData)
    (hm : m ∈ b.findMatches) (hsh : m.shape ≠ MatchShape.tshape) :
    (m.specialType = SpecialType.rocket ↔ m.length = 4) ∧
    (m.specialType = SpecialType.rainbow ↔ m.length = 5) ∧
    ((m.length = 3 ∨ 6 ≤ m.length) → m.specialType = SpecialType.normal) := by
  rcases enhance_mem _ _ hm with h | h
  · exact absurd h hsh
  · obtain ⟨hlen, hst⟩ := scanPasses_invariant b m h
    rw [hst, determineSpecialType_eq, ← hlen]
    refine ⟨?_, ?_, ?_⟩ <;> split_ifs <;> simp_all <;> omega

/-- Witness for C2's amended theorem on the emitted length-6 match of
`board6`. -/
theorem findMatches_noncompound_specialType_witness :
    match6.specialType = SpecialType.rocket ↔ match6.length = 4 :=
  (findMatches_noncompound_specialType board6 match6 (by decide) (by decide)).1

/-- A position is in the dedup union built by `combineGems` exactly when it
is in one of the two gem lists. -/
theorem combineGems_any (p : Int × Int) :
    ∀ (gems2 gems1 : List MatchCell),
      ((combineGems gems1 gems2).any (fun g => g.x = p.1 ∧ g.y = p.2)) =
      (gems1.any (fun g => g.x = p.1 ∧ g.y = p.2) ||
       gems2.any (fun g => g.x = p.1 ∧ g.y = p.2)) := by
  intro gems2
  induction gems2 with
  | nil => intro gems1; simp [combineGems]
  | cons g2 rest ih =>
    intro gems1
    show ((combineGems (if gems1.any (fun g => g.x = g2.x ∧ g.y = g2.y) then gems1
        else gems1 ++ [g2]) rest).any _) = _
    rw [ih]
    by_cases h : gems1.any (fun g => decide (g.x = g2.x ∧ g.y = g2.y)) = true
    · rw [if_pos h, List.any_cons]
      by_cases hg : (g2.x = p.1 ∧ g2.y = p.2)
      · have hmem : gems1.any (fun g => decide (g.x = p.1 ∧ g.y = p.2)) = true := by
          rcases List.any_eq_true.1 h with ⟨a, ha, hpa⟩
          rcases of_decide_eq_true hpa with ⟨hax, hay⟩
          exact List.any_eq_true.2 ⟨a, ha, decide_eq_true (by
            exact ⟨hax.trans hg.1, hay.trans hg.2⟩)⟩
        rw [hmem, Bool.true_or, Bool.true_or]
      · rw [decide_eq_false hg, Bool.false_or]
    · rw [if_neg h, List.any_append, List.any_cons, List.any_cons,
        List.any_nil, Bool.or_false, Bool.or_assoc]

/-- `combineGems` keeps positions pairwise distinct when its first argument
has pairwise distinct positions. -/
theorem combineGems_nodup :
    ∀ (gems2 gems1 : List MatchCell),
      gems1.Pairwise (fun a b => ¬(a.x = b.x ∧ a.y = b.y)) →
      (combineGems gems1 gems2).Pairwise (fun a b => ¬(a.x = b.x ∧ a.y = b.y)) := by
  intro gems2
  induction gems2 with
  | nil => intro gems1 h; exact h
  | cons g2 rest ih =>
    intro gems1 hnd
    show (combineGems (if gems1.any (fun g => g.x = g2.x ∧ g.y = g2.y) then gems1
        else gems1 ++ [g2]) rest).Pairwise _
    by_cases h : gems1.any (fun g => decide (g.x = g2.x ∧ g.y = g2.y)) = true
    · rw [if_pos h]
      exact ih gems1 hnd
    · rw [if_neg h]
      refine ih _ (List.pairwise_append.2 ⟨hnd, List.pairwise_singleton _ _, ?_⟩)
      intro a ha b hb
      rcases List.mem_singleton.1 hb with rfl
      intro hab
      exact h (List.any_eq_true.2 ⟨a, ha, decide_eq_true hab⟩)

/-- C1: whenever the scanning passes emit exactly one horizontal and one
vertical run that share a cell, `findMatches` merges them into a single
compound (t-shape) match whose gem list is the position-deduplicated union
of the two runs, with `specialType = bomb` exactly when the union has at
least 5 gems and `normal` (the spec's `none`) otherwise. -/
theorem findMatches_merges_perpendicular (b : GameBoard) (m1 m2 : MatchData)
    (c : Int × Int)
    (hemit : b.scanPasses = [m1, m2])
    (h1 : m1.shape = MatchShape.horizontal)
    (h2 : m2.shape = MatchShape.vertical)
    (hc : findMatchIntersection m1 m2 = some c)
    (hnd : m1.gems.Pairwise (fun a b => ¬(a.x = b.x ∧ a.y = b.y))) :
    b.findMatches = [mergeMatches m1 m2 c] ∧
    (mergeMatches m1 m2 c).shape = MatchShape.tshape ∧
    (mergeMatches m1 m2 c).center = some c ∧
    (∀ p : Int × Int,
      ((mergeMatches m1 m2 c).gems.any (fun g => g.x = p.1 ∧ g.y = p.2)) =
      (m1.gems.any (fun g => g.x = p.1 ∧ g.y = p.2) ||
       m2.gems.any (fun g => g.x = p.1 ∧ g.y = p.2))) ∧
    (mergeMatches m1 m2 c).gems.Pairwise (fun a b => ¬(a.x = b.x ∧ a.y = b.y)) ∧
    ((mergeMatches m1 m2 c).specialType = SpecialType.bomb ↔
      5 ≤ (mergeMatches m1 m2 c).gems.length) ∧
    ((mergeMatches m1 m2 c).specialType = SpecialType.normal ↔
      (mergeMatches m1 m2 c).gems.length < 5) := by
  refine ⟨?_, rfl, rfl, ?_, ?_, ?_, ?_⟩
  · unfold findMatches
    rw [hemit]
    unfold enhanceMatchesWithLAndT
    rw [if_neg (by simp)]
    have henum : ([m1, m2] : List MatchData).enum = [(0, m1), (1, m2)] := rfl
    rw [henum]
    unfold enhanceAux
    rw [if_neg (by simp)]
    unfold findFirstPerpIntersecting
    rw [if_neg (by simp), hc]
    dsimp only
    rw [if_pos (Or.inl ⟨h1, h2⟩)]
    dsimp only
    unfold enhanceAux
    rw [if_pos (by simp)]
    rfl
  · intro p
    exact combineGems_any p m2.gems m1.gems
  · exact combineGems_nodup m2.gems m1.gems hnd
  · unfold mergeMatches
    dsimp only
    split_ifs with h <;> simp_all
  · unfold mergeMatches
    dsimp only
    split_ifs with h <;> simp_all

/-- Witness for C1 on `boardT`: its horizontal and vertical runs share
cell `(1, 2)` and merge into a single compound bomb match. -/
theorem findMatches_merges_perpendicular_witness :
    boardT.findMatches = [mergeMatches matchTH matchTV (1, 2)] :=
  (findMatches_merges_perpendicular boardT matchTH matchTV (1, 2)
    (by decide) (by decide) (by decide) (by decide) (by decide)).1

/-- The bottom-up gravity walk collects exactly the column's gems. -/
theorem gatherBottomUp_map_snd :
    ∀ (l : List (Option Gem)) (ys : List Nat), ys.length = l.length →
      (gatherBottomUp (ys.zip l)).map Prod.snd = l.filterMap id := by
  intro l
  induction l with
  | nil => intro ys h; simp [gatherBottomUp]
  | cons c rest ih =>
    intro ys h
    cases ys with
    | nil => exact absurd h (by simp)
    | cons y ys =>
      cases c with
      | some g => simpa [List.zip_cons_cons, gatherBottomUp] using ih ys (by simpa using h)
      | none => simpa [List.zip_cons_cons, gatherBottomUp] using ih ys (by simpa using h)

/-- Mapping a core-preserving per-entry function over an enumerated list
preserves the core sequence. -/
theorem map_enumFrom_core (f : Nat × (Nat × Gem) → Gem)
    (hf : ∀ e, gemCore (f e) = gemCore e.2.2) :
    ∀ (l : List (Nat × Gem)) (n : Nat),
      ((List.enumFrom n l).map f).map gemCore = l.map (fun e => gemCore e.2) := by
  intro l
  induction l with
  | nil => intro n; rfl
  | cons e rest ih =>
    intro n
    simp only [List.enumFrom, List.map_cons, hf, ih (n + 1)]

/-- `filterMap` commutes with `reverse`. -/
theorem filterMap_id_reverse (l : List (Option Gem)) :
    l.reverse.filterMap id = (l.filterMap id).reverse := by
  induction l with
  | nil => rfl
  | cons c rest ih =>
    cases c with
    | some g => simp [List.filterMap_append, ih]
    | none => simp [List.filterMap_append, ih]

/-- C5: `applyGravityColumn` keeps the column's size, puts the surviving
gems (same colors and kinds, in their original top-down order) in the
bottom-most cells, and the vacated top cells hold exactly the freshly
drawn gems. -/
theorem applyGravityColumn_spec (x : Int) (fresh : Nat → GemColor)
    (col : List (Option Gem)) :
    (applyGravityColumn x fresh col).length = col.length ∧
    ((applyGravityColumn x fresh col).drop
        (col.length - (col.filterMap id).length)).map gemCore
      = (col.filterMap id).map gemCore ∧
    ((applyGravityColumn x fresh col).take
        (col.length - (col.filterMap id).length)).map gemCore
      = ((List.range (col.length - (col.filterMap id).length)).map
          (fun j => (fresh j, GemType.normal))).reverse := by
  have hzlen : ((List.range col.length).reverse).length = col.reverse.length := by
    simp
  have hgather :
      (gatherBottomUp ((List.range col.length).reverse.zip col.reverse)).map Prod.snd
        = (col.filterMap id).reverse := by
    rw [gatherBottomUp_map_snd col.reverse _ hzlen, filterMap_id_reverse]
  have hclen :
      (gatherBottomUp ((List.range col.length).reverse.zip col.reverse)).length
        = (col.filterMap id).length := by
    have := congrArg List.length hgather
    simpa using this
  have hle : (col.filterMap id).length ≤ col.length := List.length_filterMap_le _ _
  unfold applyGravityColumn
  set collected := gatherBottomUp ((List.range col.length).reverse.zip col.reverse)
    with hcollected
  set settled := collected.enum.map
    (fun entry =>
      if entry.2.1 = col.length - 1 - entry.1 then entry.2.2
      else updCoords entry.2.2 x ((col.length : Int) - 1 - entry.1)) with hsettled
  set freshGems := (List.range (col.length - collected.length)).map
    (fun j => mkFreshGem x (((col.length : Int) - collected.length - 1) - Int.ofNat j)
      (fresh j)) with hfresh
  have hslen : settled.length = (col.filterMap id).length := by
    rw [hsettled]
    simp [hclen]
  have hscore : settled.map gemCore = (col.filterMap id).reverse.map gemCore := by
    rw [hsettled, ← hgather]
    have hmec := map_enumFrom_core
      (fun entry =>
        if entry.2.1 = col.length - 1 - entry.1 then entry.2.2
        else updCoords entry.2.2 x ((col.length : Int) - 1 - entry.1))
      (by
        intro e
        dsimp only
        split_ifs <;> rfl)
      collected 0
    have henum : collected.enum = List.enumFrom 0 collected := rfl
    rw [henum, hmec, List.map_map]
    rfl
  have hflen : freshGems.length = col.length - (col.filterMap id).length := by
    rw [hfresh]
    simp [hclen]
  have hsplit : (settled ++ freshGems).reverse = freshGems.reverse ++ settled.reverse := by
    simp
  rw [hsplit]
  refine ⟨?_, ?_, ?_⟩
  · rw [List.length_append, List.length_reverse, List.length_reverse, hslen, hflen]
    omega
  · have hlen' : (freshGems.reverse).length = col.length - (col.filterMap id).length := by
      rw [List.length_reverse, hflen]
    rw [List.drop_left' hlen', List.map_reverse, hscore, List.map_reverse,
      List.reverse_reverse]
  · have hlen' : (freshGems.reverse).length = col.length - (col.filterMap id).length := by
      rw [List.length_reverse, hflen]
    rw [List.take_left' hlen', List.map_reverse, hfresh, List.map_map, hclen]
    rfl

/-- C6 counterexample: refilling the empty 1×3 column from a draw stream
whose first three draws are red produces an immediate vertical run of three
red tiles (a match the detector reports), although the stream's very next
draw is blue — a single redraw within the §4.6 retry budget, as exhibited
by `redrawStream`, would have avoided the run entirely.  The code never
redraws. -/
theorem applyGravity_no_retry_counterexample :
    ((boardEmptyCol.applyGravity runStream).column 0).map (Option.map Gem.color) =
      [some GemColor.red, some GemColor.red, some GemColor.red] ∧
    (boardEmptyCol.applyGravity runStream).findMatches ≠ [] ∧
    runStream 0 3 = GemColor.blue ∧
    (boardEmptyCol.applyGravity redrawStream).findMatches = [] := by
  refine ⟨by decide, by decide, by decide, by decide⟩

/-- C6 (amended): the refill tiles of a column are exactly the first
`k` draws of the supply, placed unconditionally — no retry and no
inspection of the rest of the column or board ever occurs. -/
theorem applyGravityColumn_fresh_unconditional (x : Int) (fresh : Nat → GemColor)
    (col : List (Option Gem)) :
    (applyGravityColumn x fresh col).take
        (col.length - (col.filterMap id).length) =
      ((List.range (col.length - (col.filterMap id).length)).map
        (fun j => mkFreshGem x
          (((col.length : Int) - ((col.filterMap id).length : Int) - 1) - Int.ofNat j)
          (fresh j))).reverse := by
  have hzlen : ((List.range col.length).reverse).length = col.reverse.length := by
    simp
  have hgather :
      (gatherBottomUp ((List.range col.length).reverse.zip col.reverse)).map Prod.snd
        = (col.filterMap id).reverse := by
    rw [gatherBottomUp_map_snd col.reverse _ hzlen, filterMap_id_reverse]
  have hclen :
      (gatherBottomUp ((List.range col.length).reverse.zip col.reverse)).length
        = (col.filterMap id).length := by
    have := congrArg List.length hgather
    simpa using this
  unfold applyGravityColumn
  set collected := gatherBottomUp ((List.range col.length).reverse.zip col.reverse)
    with hcollected
  set settled := collected.enum.map
    (fun entry =>
      if entry.2.1 = col.length - 1 - entry.1 then entry.2.2
      else updCoords entry.2.2 x ((col.length : Int) - 1 - entry.1)) with hsettled
  set freshGems := (List.range (col.length - collected.length)).map
    (fun j => mkFreshGem x (((col.length : Int) - collected.length - 1) - Int.ofNat j)
      (fresh j)) with hfresh
  have hflen : freshGems.length = col.length - (col.filterMap id).length := by
    rw [hfresh]
    simp [hclen]
  have hsplit : (settled ++ freshGems).reverse = freshGems.reverse ++ settled.reverse := by
    simp
  rw [hsplit]
  have hlen' : (freshGems.reverse).length = col.length - (col.filterMap id).length := by
    rw [List.length_reverse, hflen]
  rw [List.take_left' hlen', hfresh, hclen]

/-- Membership in the `gemsToRemove` set after a `Set.add`. -/
theorem insertKey_mem (keys : List (Int × Int)) (key q : Int × Int) :
    q ∈ insertKey keys key ↔ q ∈ keys ∨ q = key := by
  unfold insertKey
  split_ifs with h
  · exact ⟨Or.inl, fun hq => hq.elim id (fun e => e ▸ h)⟩
  · simp [List.mem_append]

/-- The gem walk of one match in `removeMatches` keeps the pending-creation
list unchanged. -/
theorem removalStepFold_creates (cre : List SpecialCreate) :
    ∀ (gems : List MatchCell) (removed0 : List (Int × Int))
      (acts0 : List (Gem × Int × Int)),
      (List.foldl (fun (plan : RemovalPlan) pos =>
          ⟨if cre.any (fun s => s.x = pos.x ∧ s.y = pos.y) then plan.removed
            else insertKey plan.removed (pos.x, pos.y), cre,
           if pos.gem.type = GemType.rocket ∨ pos.gem.type = GemType.bomb then
             plan.activates ++ [(pos.gem, pos.x, pos.y)] else plan.activates⟩)
          ⟨removed0, cre, acts0⟩ gems).creates = cre := by
  intro gems
  induction gems with
  | nil => intro removed0 acts0; rfl
  | cons pos rest ih => intro removed0 acts0; exact ih _ _

/-- A position lands in the `gemsToRemove` set of one match's walk exactly
when it is a member position of the match not claimed by a pending special
creation. -/
theorem removalStepFold_mem (cre : List SpecialCreate) (q : Int × Int) :
    ∀ (gems : List MatchCell) (removed0 : List (Int × Int))
      (acts0 : List (Gem × Int × Int)),
      (q ∈ (List.foldl (fun (plan : RemovalPlan) pos =>
          ⟨if cre.any (fun s => s.x = pos.x ∧ s.y = pos.y) then plan.removed
            else insertKey plan.removed (pos.x, pos.y), cre,
           if pos.gem.type = GemType.rocket ∨ pos.gem.type = GemType.bomb then
             plan.activates ++ [(pos.gem, pos.x, pos.y)] else plan.activates⟩)
          ⟨removed0, cre, acts0⟩ gems).removed) ↔
      (q ∈ removed0 ∨ ∃ pos ∈ gems, (pos.x, pos.y) = q ∧
        ¬ (cre.any (fun s => s.x = pos.x ∧ s.y = pos.y) = true)) := by
  intro gems
  induction gems with
  | nil =>
    intro removed0 acts0
    simp
  | cons pos rest ih =>
    intro removed0 acts0
    rw [List.foldl_cons]
    by_cases hguard : cre.any (fun s => s.x = pos.x ∧ s.y = pos.y) = true
    · rw [show (⟨if cre.any (fun s => s.x = pos.x ∧ s.y = pos.y) then removed0
            else insertKey removed0 (pos.x, pos.y), cre,
           if pos.gem.type = GemType.rocket ∨ pos.gem.type = GemType.bomb then
             acts0 ++ [(pos.gem, pos.x, pos.y)] else acts0⟩ : RemovalPlan)
          = ⟨removed0, cre,
             if pos.gem.type = GemType.rocket ∨ pos.gem.type = GemType.bomb then
               acts0 ++ [(pos.gem, pos.x, pos.y)] else acts0⟩ from by rw [if_pos hguard]]
      rw [ih]
      constructor
      · rintro (hq | ⟨pos2, hmem, hq, hng⟩)
        · exact Or.inl hq
        · exact Or.inr ⟨pos2, List.mem_cons_of_mem _ hmem, hq, hng⟩
      · rintro (hq | ⟨pos2, hmem, hq, hng⟩)
        · exact Or.inl hq
        · rcases List.mem_cons.1 hmem with rfl | hmem
          · exact absurd hguard hng
          · exact Or.inr ⟨pos2, hmem, hq, hng⟩
    · rw [show (⟨if cre.any (fun s => s.x = pos.x ∧ s.y = pos.y) then removed0
            else insertKey removed0 (pos.x, pos.y), cre,
           if pos.gem.type = GemType.rocket ∨ pos.gem.type = GemType.bomb then
             acts0 ++ [(pos.gem, pos.x, pos.y)] else acts0⟩ : RemovalPlan)
          = ⟨insertKey removed0 (pos.x, pos.y), cre,
             if pos.gem.type = GemType.rocket ∨ pos.gem.type = GemType.bomb then
               acts0 ++ [(pos.gem, pos.x, pos.y)] else acts0⟩ from by rw [if_neg hguard]]
      rw [ih, insertKey_mem]
      constructor
      · rintro ((hq | hq) | ⟨pos2, hmem, hq, hng⟩)
        · exact Or.inl hq
        · exact Or.inr ⟨pos, List.mem_cons_self _ _, hq.symm, hguard⟩
        · exact Or.inr ⟨pos2, List.mem_cons_of_mem _ hmem, hq, hng⟩
      · rintro (hq | ⟨pos2, hmem, hq, hng⟩)
        · exact Or.inl (Or.inl hq)
        · rcases List.mem_cons.1 hmem with rfl | hmem
          · exact Or.inl (Or.inr hq.symm)
          · exact Or.inr ⟨pos2, hmem, hq, hng⟩

/-- C4 (amended): for a match with a non-`none` special kind whose creation
position resolves to `p`, the first pass of `removeMatches` registers
exactly one special creation at `p`, and the removal set is exactly the
match's member positions with `p` excluded.  (The creation position itself
is chosen by `getBestSpecialGemPosition`: the compound center first, then
the last swap position when it is a member, then the middle gem.) -/
theorem removeMatches_removal_set (lastSwap : Option (Int × Int)) (m : MatchData)
    (p : Int × Int)
    (hspec : m.specialType ≠ SpecialType.normal)
    (hpos : getBestSpecialGemPosition lastSwap m = some p) :
    (removalPlanOf lastSwap [m]).creates =
      [⟨p.1, p.2, m.color, m.specialType, decide (m.shape = MatchShape.horizontal)⟩] ∧
    ∀ q : Int × Int,
      (q ∈ (removalPlanOf lastSwap [m]).removed ↔
        ((∃ pos ∈ m.gems, (pos.x, pos.y) = q) ∧ q ≠ p)) := by
  have hstep : removalPlanOf lastSwap [m] = removalPlanStep lastSwap ⟨[], [], []⟩ m := by
    unfold removalPlanOf
    rw [List.foldl_cons, List.foldl_nil]
  have hguard : ∀ pos : MatchCell,
      (([⟨p.1, p.2, m.color, m.specialType,
          decide (m.shape = MatchShape.horizontal)⟩] : List SpecialCreate).any
        (fun s => s.x = pos.x ∧ s.y = pos.y) = true) ↔ ((pos.x, pos.y) = p) := by
    intro pos
    simp only [List.any_cons, List.any_nil, Bool.or_false]
    constructor
    · intro h
      rcases of_decide_eq_true h with ⟨ha, hb⟩
      cases p
      simp_all
    · intro h
      cases p
      rcases Prod.mk.injEq .. ▸ h with ⟨ha, hb⟩
      exact decide_eq_true (by simp_all)
  rw [hstep]
  simp only [removalPlanStep, hpos]
  rw [if_pos hspec]
  constructor
  · exact removalStepFold_creates _ m.gems [] []
  · intro q
    rw [removalStepFold_mem _ q m.gems [] []]
    constructor
    · rintro (hq | ⟨pos, hmem, hq, hng⟩)
      · exact absurd hq (List.not_mem_nil q)
      · refine ⟨⟨pos, hmem, hq⟩, ?_⟩
        intro hqp
        exact hng ((hguard pos).2 (hq.trans hqp))
    · rintro ⟨⟨pos, hmem, hq⟩, hqp⟩
      refine Or.inr ⟨pos, hmem, hq, ?_⟩
      intro hg
      exact hqp (hq.symm.trans ((hguard pos).1 hg))

/-- C4 counterexample: on the compound match `matchCompound` the last swap
position `(0, 0)` is a member, yet the creation position is the compound
center `(1, 0)` (the code checks `centerX`/`centerY` before the last swap
position), and `(0, 0)` itself is removed — refuting the claimed priority
of the most recently moved-into position. -/
theorem getBestSpecialGemPosition_center_first :
    getBestSpecialGemPosition (some (0, 0)) matchCompound = some (1, 0) ∧
    (matchCompound.gems.find? (fun pos => pos.x = 0 ∧ pos.y = 0)).isSome = true ∧
    ((0 : Int), (0 : Int)) ∈ (removalPlanOf (some (0, 0)) [matchCompound]).removed ∧
    ((1 : Int), (0 : Int)) ∉ (removalPlanOf (some (0, 0)) [matchCompound]).removed := by
  refine ⟨by decide, by decide, by decide, by decide⟩

/-- Witness for C4's amended theorem: the compound match's plan creates the
bomb at the center `(1, 0)`. -/
theorem removeMatches_removal_set_witness :
    (removalPlanOf (some (0, 0)) [matchCompound]).creates =
      [⟨1, 0, matchCompound.color, matchCompound.specialType,
        decide (matchCompound.shape = MatchShape.horizontal)⟩] :=
  (removeMatches_removal_set (some (0, 0)) matchCompound (1, 0)
    (by decide) (by decide)).1

/-- C7 counterexample: the 3×1 all-red board with an all-red refill supply
still has matches after 0, 1, 2 and 3 cascade rounds, although its board
area is 3 — the cascade is not settled within area-many rounds. -/
theorem cascade_exceeds_area_bound :
    board3.width * board3.height = 3 ∧
    board3.findMatches ≠ [] ∧
    (cascadeRounds redCascade 1 board3).findMatches ≠ [] ∧
    (cascadeRounds redCascade 2 board3).findMatches ≠ [] ∧
    (cascadeRounds redCascade 3 board3).findMatches ≠ [] := by
  refine ⟨by decide, by decide, by decide, by decide, by decide⟩

/-- C7 (amended): one cascade round is detect → resolve → gravity/refill,
and the loop reaches Idle exactly when a detection comes back empty; but
because refill draws are unconstrained, no bound in terms of the board
alone exists — with an all-red supply the 3×1 board is a fixed point of
the round and never reaches Idle, after any number of rounds. -/
theorem cascade_not_bounded_by_area :
    ∀ n : Nat, (cascadeRounds redCascade n board3).findMatches ≠ [] := by
  have hfix : ∀ k : Nat, cascadeRound (redCascade k) board3 = board3 := by
    intro k
    show cascadeRound (fun _ _ => GemColor.red) board3 = board3
    decide
  intro n
  induction n with
  | zero => decide
  | succ n ih =>
    show (cascadeRounds redCascade n (cascadeRound (redCascade n) board3)).findMatches ≠ []
    rw [hfix n]
    exact ih

/-- `get?` after `set`. -/
theorem list_get?_set {α : Type _} :
    ∀ (l : List α) (i j : Nat) (a : α),
      (l.set i a).get? j = if i = j ∧ j < l.length then some a else l.get? j := by
  intro l
  induction l with
  | nil => intro i j a; simp
  | cons x xs ih =>
    intro i j a
    cases i with
    | zero =>
      cases j with
      | zero => simp
      | succ j => simp
    | succ i =>
      cases j with
      | zero => simp
      | succ j =>
        have hstep : ((x :: xs).set (i + 1) a).get? (j + 1) = (xs.set i a).get? j := rfl
        rw [hstep, ih i j a]
        have hiff : (i = j ∧ j < xs.length) ↔
            ((i + 1 = j + 1) ∧ (j + 1 < (x :: xs).length)) := by
          simp only [List.length_cons]
          omega
        rw [if_congr hiff rfl (show xs.get? j = (x :: xs).get? (j + 1) from rfl)]

/-- Pointwise `get?` equality implies list equality. -/
theorem list_ext_get? {α : Type _} :
    ∀ {l₁ l₂ : List α}, (∀ n, l₁.get? n = l₂.get? n) → l₁ = l₂ := by
  intro l₁
  induction l₁ with
  | nil =>
    intro l₂ h
    cases l₂ with
    | nil => rfl
    | cons y ys => exact absurd (h 0).symm (by simp)
  | cons x xs ih =>
    intro l₂ h
    cases l₂ with
    | nil => exact absurd (h 0) (by simp)
    | cons y ys =>
      have h0 := h 0
      simp only [List.get?_cons_zero, Option.some.injEq] at h0
      rw [h0, ih (fun n => h (n + 1))]

/-- `getD` through `get?`. -/
theorem list_getD_eq_get? {α : Type _} :
    ∀ (l : List α) (i : Nat) (d : α), l.getD i d = (l.get? i).getD d := by
  intro l
  induction l with
  | nil => intro i d; cases i <;> rfl
  | cons x xs ih =>
    intro i d
    cases i with
    | zero => rfl
    | succ i => exact ih i d

/-- In-range `get?` is `some` of the `getD` value. -/
theorem list_get?_eq_some_getD {α : Type _} (l : List α) (n : Nat) (d : α)
    (h : n < l.length) : l.get? n = some (l.getD n d) := by
  rw [list_getD_eq_get?]
  cases hg : l.get? n with
  | none => exact absurd (List.get?_eq_none.1 hg) (by omega)
  | some a => rfl

/-- Writing back the value already stored is a no-op. -/
theorem list_set_getD_self {α : Type _} (l : List α) (i : Nat) (d : α)
    (h : i < l.length) : l.set i (l.getD i d) = l := by
  apply list_ext_get?
  intro n
  rw [list_get?_set]
  split_ifs with hc
  · rcases hc with ⟨rfl, hn⟩
    exact (list_get?_eq_some_getD l i d h).symm
  · rfl

/-- `getD` after `set`. -/
theorem list_set_getD {α : Type _} (l : List α) (i n : Nat) (a d : α) :
    (l.set i a).getD n d = if i = n ∧ n < l.length then a else l.getD n d := by
  rw [list_getD_eq_get?, list_get?_set]
  split_ifs with h
  · rfl
  · rw [list_getD_eq_get?]

/-- `isValidGridPosition` unfolded to its arithmetic content. -/
theorem isValid_iff (x y : Int) (w h : Nat) :
    isValidGridPosition x y w h = true ↔
      (0 ≤ x ∧ x < (w : Int) ∧ 0 ≤ y ∧ y < (h : Int)) := by
  unfold isValidGridPosition
  simp

/-- A raw store leaves the grid's row count unchanged. -/
theorem rawSet_grid_length (b : GameBoard) (x y : Int) (v : Option Gem) :
    (b.rawSet x y v).grid.length = b.grid.length := by
  unfold GameBoard.rawSet
  exact List.length_set ..

/-- A raw store leaves every row's length unchanged. -/
theorem rawSet_row_length (b : GameBoard) (x y : Int) (v : Option Gem) (n : Nat) :
    ((b.rawSet x y v).grid.getD n []).length = (b.grid.getD n []).length := by
  unfold GameBoard.rawSet
  dsimp only
  rw [list_set_getD]
  split_ifs with h
  · rw [List.length_set, h.1]
  · rfl

/-- Reading a cell after a raw store: the stored value at the written cell
(when the write landed in the array), the old value elsewhere. -/
theorem rawGet_rawSet (b : GameBoard) (xs ys xr yr : Int) (v : Option Gem) :
    (b.rawSet xs ys v).rawGet xr yr =
      if ys.toNat = yr.toNat ∧ xs.toNat = xr.toNat ∧ ys.toNat < b.grid.length ∧
          xs.toNat < (b.grid.getD ys.toNat []).length then v
      else b.rawGet xr yr := by
  unfold GameBoard.rawGet GameBoard.rawSet
  dsimp only
  rw [list_set_getD]
  by_cases hy : ys.toNat = yr.toNat
  · by_cases hylen : yr.toNat < b.grid.length
    · rw [if_pos ⟨hy, hylen⟩, list_set_getD]
      by_cases hx : xs.toNat = xr.toNat
      · by_cases hxlen : xr.toNat < (b.grid.getD ys.toNat []).length
        · rw [if_pos ⟨hx, hxlen⟩, if_pos ⟨hy, hx, by omega, by omega⟩]
        · rw [if_neg (by tauto), if_neg (by omega), hy]
      · rw [if_neg (by tauto), if_neg (by tauto), hy]
    · rw [if_neg (by omega), if_neg (by omega)]
  · rw [if_neg (by tauto), if_neg (by tauto)]

/-- Two raw stores to the same cell: the second wins. -/
theorem rawSet_rawSet_same (b : GameBoard) (x y : Int) (v w : Option Gem)
    (hlen : y.toNat < b.grid.length) :
    (b.rawSet x y v).rawSet x y w = b.rawSet x y w := by
  rcases b with ⟨bw, bh, G⟩
  unfold GameBoard.rawSet
  dsimp only
  have hrow : (G.set y.toNat ((G.getD y.toNat []).set x.toNat v)).getD y.toNat []
      = (G.getD y.toNat []).set x.toNat v := by
    rw [list_set_getD, if_pos ⟨rfl, hlen⟩]
  rw [hrow, List.set_set, List.set_set]

/-- Raw stores to different cells commute. -/
theorem rawSet_comm (b : GameBoard) (x1 y1 x2 y2 : Int) (v w : Option Gem)
    (hcell : ¬(y1.toNat = y2.toNat ∧ x1.toNat = x2.toNat))
    (hlen1 : y1.toNat < b.grid.length) (hlen2 : y2.toNat < b.grid.length) :
    (b.rawSet x1 y1 v).rawSet x2 y2 w = (b.rawSet x2 y2 w).rawSet x1 y1 v := by
  rcases b with ⟨bw, bh, G⟩
  unfold GameBoard.rawSet
  dsimp only
  by_cases hi : y1.toNat = y2.toNat
  · have hj : x1.toNat ≠ x2.toNat := fun hx => hcell ⟨hi, hx⟩
    rw [← hi]
    have hrow1 : (G.set y1.toNat ((G.getD y1.toNat []).set x1.toNat v)).getD y1.toNat []
        = (G.getD y1.toNat []).set x1.toNat v := by
      rw [list_set_getD, if_pos ⟨rfl, hlen1⟩]
    have hrow2 : (G.set y1.toNat ((G.getD y1.toNat []).set x2.toNat w)).getD y1.toNat []
        = (G.getD y1.toNat []).set x2.toNat w := by
      rw [list_set_getD, if_pos ⟨rfl, hlen1⟩]
    rw [hrow1, hrow2, List.set_set, List.set_set, List.set_comm _ _ _ hj]
  · have hrow1 : (G.set y1.toNat ((G.getD y1.toNat []).set x1.toNat v)).getD y2.toNat []
        = G.getD y2.toNat [] := by
      rw [list_set_getD, if_neg (by tauto)]
    have hrow2 : (G.set y2.toNat ((G.getD y2.toNat []).set x2.toNat w)).getD y1.toNat []
        = G.getD y1.toNat [] := by
      rw [list_set_getD, if_neg (by tauto)]
    rw [hrow1, hrow2, List.set_comm _ _ _ hi]

/-- Writing a cell's own value back is a no-op. -/
theorem rawSet_cancel (b : GameBoard) (x y : Int)
    (hleny : y.toNat < b.grid.length)
    (hlenx : x.toNat < (b.grid.getD y.toNat []).length) :
    b.rawSet x y (b.rawGet x y) = b := by
  rcases b with ⟨bw, bh, G⟩
  unfold GameBoard.rawSet GameBoard.rawGet
  dsimp only at hleny hlenx ⊢
  rw [list_set_getD_self _ _ _ hlenx, list_set_getD_self _ _ _ hleny]

/-- A second coordinate rewrite overrides the first. -/
theorem updCell_updCell (c : Option Gem) (x y a b : Int) :
    GameBoard.updCell (GameBoard.updCell c x y) a b = GameBoard.updCell c a b := by
  cases c <;> rfl

/-- Under the position-sync invariant, rewriting a stored gem's coordinates
to its own cell is a no-op. -/
theorem updCell_rawGet_of_synced (b : GameBoard) (hs : b.Synced) (x y : Int)
    (h0x : 0 ≤ x) (hxw : x < (b.width : Int)) (h0y : 0 ≤ y)
    (hyh : y < (b.height : Int)) :
    GameBoard.updCell (b.rawGet x y) x y = b.rawGet x y := by
  have hx' : x.toNat < b.width := by omega
  have hy' : y.toNat < b.height := by omega
  have hsy := hs y.toNat hy' x.toNat hx'
  have hxx : ((x.toNat : Nat) : Int) = x := Int.toNat_of_nonneg h0x
  have hyy : ((y.toNat : Nat) : Int) = y := Int.toNat_of_nonneg h0y
  rw [hxx, hyy] at hsy
  cases hg : b.rawGet x y with
  | none => rfl
  | some g =>
    rw [hg] at hsy
    obtain ⟨e1, e2, e3, e4⟩ := of_decide_eq_true hsy
    unfold GameBoard.updCell GameBoard.updCoords
    cases g
    simp_all

/-- Applying `swapGems` twice with the same arguments restores the board
exactly, on any well-formed position-synced board (valid or invalid
positions alike). -/
theorem swapGems_swapGems (b : GameBoard) (x1 y1 x2 y2 : Int)
    (hwf : b.WF) (hs : b.Synced) :
    ((b.swapGems x1 y1 x2 y2).2.swapGems x1 y1 x2 y2).2 = b := by
  by_cases hv : (isValidGridPosition x1 y1 b.width b.height = true ∧
      isValidGridPosition x2 y2 b.width b.height = true)
  case neg =>
    have h1 : b.swapGems x1 y1 x2 y2 = (false, b) := by
      unfold GameBoard.swapGems
      rw [if_neg hv]
    rw [h1]
    show (b.swapGems x1 y1 x2 y2).2 = b
    rw [h1]
  case pos =>
    obtain ⟨hv1, hv2⟩ := hv
    obtain ⟨h0x1, hx1, h0y1, hy1⟩ := (isValid_iff x1 y1 b.width b.height).1 hv1
    obtain ⟨h0x2, hx2, h0y2, hy2⟩ := (isValid_iff x2 y2 b.width b.height).1 hv2
    have hi1 : y1.toNat < b.grid.length := by rw [hwf.1]; omega
    have hi2 : y2.toNat < b.grid.length := by rw [hwf.1]; omega
    have hrow : ∀ n, n < b.grid.length → (b.grid.getD n []).length = b.width := by
      intro n hn
      exact hwf.2 _ (List.get?_mem (list_get?_eq_some_getD b.grid n [] hn))
    have hj1 : x1.toNat < (b.grid.getD y1.toNat []).length := by
      rw [hrow _ hi1]; omega
    have hj2 : x2.toNat < (b.grid.getD y2.toNat []).length := by
      rw [hrow _ hi2]; omega
    have hup1 : GameBoard.updCell (b.rawGet x1 y1) x1 y1 = b.rawGet x1 y1 :=
      updCell_rawGet_of_synced b hs x1 y1 h0x1 hx1 h0y1 hy1
    have hup2 : GameBoard.updCell (b.rawGet x2 y2) x2 y2 = b.rawGet x2 y2 :=
      updCell_rawGet_of_synced b hs x2 y2 h0x2 hx2 h0y2 hy2
    have hcancel1 : b.rawSet x1 y1 (b.rawGet x1 y1) = b := rawSet_cancel b x1 y1 hi1 hj1
    have hcancel2 : b.rawSet x2 y2 (b.rawGet x2 y2) = b := rawSet_cancel b x2 y2 hi2 hj2
    have hswap : ∀ c : GameBoard, c.width = b.width → c.height = b.height →
        c.swapGems x1 y1 x2 y2 =
          (true, (c.rawSet x1 y1 (GameBoard.updCell (c.rawGet x2 y2) x1 y1)).rawSet x2 y2
            (GameBoard.updCell (c.rawGet x1 y1) x2 y2)) := by
      intro c hcw hch
      unfold GameBoard.swapGems
      rw [if_pos ⟨by rw [hcw, hch]; exact hv1, by rw [hcw, hch]; exact hv2⟩]
    rw [hswap b rfl rfl]
    show ((((b.rawSet x1 y1 (GameBoard.updCell (b.rawGet x2 y2) x1 y1)).rawSet x2 y2
        (GameBoard.updCell (b.rawGet x1 y1) x2 y2))).swapGems x1 y1 x2 y2).2 = b
    by_cases hsame : (y1.toNat = y2.toNat ∧ x1.toNat = x2.toNat)
    · have hyeq : y1 = y2 := by omega
      have hxeq : x1 = x2 := by omega
      subst hyeq
      subst hxeq
      rw [hup1, hcancel1, hcancel1, hswap b rfl rfl]
      show (b.rawSet x1 y1 (GameBoard.updCell (b.rawGet x1 y1) x1 y1)).rawSet x1 y1
        (GameBoard.updCell (b.rawGet x1 y1) x1 y1) = b
      rw [hup1, hcancel1, hcancel1]
    · rw [hswap ((b.rawSet x1 y1 (GameBoard.updCell (b.rawGet x2 y2) x1 y1)).rawSet x2 y2
        (GameBoard.updCell (b.rawGet x1 y1) x2 y2)) rfl rfl]
      show ((((b.rawSet x1 y1 (GameBoard.updCell (b.rawGet x2 y2) x1 y1)).rawSet x2 y2
          (GameBoard.updCell (b.rawGet x1 y1) x2 y2))).rawSet x1 y1
            (GameBoard.updCell
              ((((b.rawSet x1 y1 (GameBoard.updCell (b.rawGet x2 y2) x1 y1)).rawSet x2 y2
                (GameBoard.updCell (b.rawGet x1 y1) x2 y2))).rawGet x2 y2) x1 y1)).rawSet x2 y2
            (GameBoard.updCell
              ((((b.rawSet x1 y1 (GameBoard.updCell (b.rawGet x2 y2) x1 y1)).rawSet x2 y2
                (GameBoard.updCell (b.rawGet x1 y1) x2 y2))).rawGet x1 y1) x2 y2) = b
      have hlen1m : y1.toNat < (b.rawSet x1 y1 (GameBoard.updCell (b.rawGet x2 y2) x1 y1)).grid.length := by
        rw [rawSet_grid_length]; exact hi1
      have hlen2m : y2.toNat < (b.rawSet x1 y1 (GameBoard.updCell (b.rawGet x2 y2) x1 y1)).grid.length := by
        rw [rawSet_grid_length]; exact hi2
      have hread1 : (((b.rawSet x1 y1 (GameBoard.updCell (b.rawGet x2 y2) x1 y1)).rawSet x2 y2
          (GameBoard.updCell (b.rawGet x1 y1) x2 y2))).rawGet x1 y1
          = GameBoard.updCell (b.rawGet x2 y2) x1 y1 := by
        rw [rawGet_rawSet, if_neg (by tauto), rawGet_rawSet,
          if_pos ⟨rfl, rfl, hi1, hj1⟩]
      have hread2 : (((b.rawSet x1 y1 (GameBoard.updCell (b.rawGet x2 y2) x1 y1)).rawSet x2 y2
          (GameBoard.updCell (b.rawGet x1 y1) x2 y2))).rawGet x2 y2
          = GameBoard.updCell (b.rawGet x1 y1) x2 y2 := by
        rw [rawGet_rawSet, if_pos ⟨rfl, rfl, hlen2m, by rw [rawSet_row_length]; exact hj2⟩]
      rw [hread1, hread2, updCell_updCell, updCell_updCell, hup1, hup2]
      rw [rawSet_comm _ x2 y2 x1 y1 _ _ (by tauto) hlen2m hlen1m]
      rw [rawSet_rawSet_same _ _ _ _ _ hi1, hcancel1]
      rw [rawSet_rawSet_same _ _ _ _ _ hi2, hcancel2]

/-- C9: `wouldCreateMatchAfterSwap` (the spec's `wouldMatchAfterSwap`)
leaves the board it returns exactly equal to the board before the call —
every cell holds the same tile record, including its recorded `x`, `y` and
target coordinates — for every well-formed board satisfying the data-model
position-sync invariant, at arbitrary (valid or invalid) positions. -/
theorem wouldCreateMatchAfterSwap_preserves (b : GameBoard) (x1 y1 x2 y2 : Int)
    (hwf : b.WF) (hs : b.Synced) :
    (b.wouldCreateMatchAfterSwap x1 y1 x2 y2).2 = b :=
  swapGems_swapGems b x1 y1 x2 y2 hwf hs

/-- Witness for C9 on the concrete board `boardW`. -/
theorem wouldCreateMatchAfterSwap_preserves_witness :
    (boardW.wouldCreateMatchAfterSwap 0 0 1 0).2 = boardW :=
  wouldCreateMatchAfterSwap_preserves boardW 0 0 1 0 (by decide) (by decide)

/-- C10: for in-bounds positions on a well-formed position-synced board,
`swapGems` succeeds, succeeds again when repeated, and the second call
restores every cell — including each tile's recorded and target
coordinates — to its state before the first call. -/
theorem swapGems_involution (b : GameBoard) (x1 y1 x2 y2 : Int)
    (hwf : b.WF) (hs : b.Synced)
    (hv1 : isValidGridPosition x1 y1 b.width b.height = true)
    (hv2 : isValidGridPosition x2 y2 b.width b.height = true) :
    (b.swapGems x1 y1 x2 y2).1 = true ∧
    ((b.swapGems x1 y1 x2 y2).2.swapGems x1 y1 x2 y2).1 = true ∧
    ((b.swapGems x1 y1 x2 y2).2.swapGems x1 y1 x2 y2).2 = b := by
  have hsw : b.swapGems x1 y1 x2 y2 =
      (true, (b.rawSet x1 y1 (GameBoard.updCell (b.rawGet x2 y2) x1 y1)).rawSet x2 y2
        (GameBoard.updCell (b.rawGet x1 y1) x2 y2)) := by
    unfold GameBoard.swapGems
    rw [if_pos ⟨hv1, hv2⟩]
  have hsw2 : ∀ c : GameBoard, c.width = b.width → c.height = b.height →
      (c.swapGems x1 y1 x2 y2).1 = true := by
    intro c hcw hch
    unfold GameBoard.swapGems
    rw [if_pos ⟨by rw [hcw, hch]; exact hv1, by rw [hcw, hch]; exact hv2⟩]
  refine ⟨by rw [hsw], ?_, swapGems_swapGems b x1 y1 x2 y2 hwf hs⟩
  rw [hsw]
  exact hsw2 _ rfl rfl

/-- Witness for C10 on the concrete board `boardW`. -/
theorem swapGems_involution_witness :
    (boardW.swapGems 0 0 1 0).1 = true ∧
    ((boardW.swapGems 0 0 1 0).2.swapGems 0 0 1 0).1 = true ∧
    ((boardW.swapGems 0 0 1 0).2.swapGems 0 0 1 0).2 = boardW :=
  swapGems_involution boardW 0 0 1 0 (by decide) (by decide) (by decide) (by decide)

end GemsBlast
